import Mathlib

/-!
Verification development for the map protocol node (mapprotocol/ori).

Each Rust subsystem touched by the checked claims is shallowly embedded:
pure functions become Lean functions, stateful methods become explicit
state-passing functions, machine integers become Nat (with comments where
overflow could matter), fallible paths return Option or Except, and the
Blake2b hash functions and ed25519 signature checks are collaborator
parameters (arbitrary functions passed to the definitions).  Every
definition is translated from the Rust source file named in its doc
comment.
-/

/- ===================== core/src/types.rs, core/src/transaction.rs ===================== -/

/-- Byte value, 0..255.  We do not enforce the bound; all encoders below
only produce values < 256. -/
abbrev Byte := Nat

/-- Model of core::types::Address, a 20 byte identifier ([u8; 20]). -/
structure Address where
  bytes : List Byte
  deriving DecidableEq, Repr

/-- Model of the sign_data field ([u8;32],[u8;32],[u8;32]) of a transaction:
signature r component, s component and the signer public key. -/
structure SignData where
  r : List Byte
  s : List Byte
  p : List Byte
  deriving DecidableEq, Repr

/-- Model of core::transaction::Transaction (src/core/src/transaction.rs).
Fields in source order: sender, nonce (u64), gas_price (u64), gas (u64),
call (Vec of bytes, a module.function selector), data (Vec of bytes),
sign_data. -/
structure Transaction where
  sender : Address
  nonce : Nat
  gas_price : Nat
  gas : Nat
  call : List Byte
  data : List Byte
  sign_data : SignData
  deriving DecidableEq, Repr

/-- Mainnet chain id, core::types::CHAIN_ID (u32, value 1). -/
def CHAIN_ID : Nat := 1

/-- Model of core::transaction::TxHashType: the hashing view of a
transaction.  Its fields are exactly chainid, nonce, gas_price, gas, call
and data; sender and sign_data are not present. -/
structure TxHashType where
  chainid : Nat
  nonce : Nat
  gas_price : Nat
  gas : Nat
  call : List Byte
  data : List Byte
  deriving DecidableEq, Repr

/-- TxHashType::new (src/core/src/transaction.rs): copies the six hashed
fields out of a transaction. -/
def TxHashType.new (tx : Transaction) : TxHashType :=
  { chainid := CHAIN_ID
    nonce := tx.nonce
    gas_price := tx.gas_price
    gas := tx.gas
    call := tx.call
    data := tx.data }

/-- Little-endian 4 byte encoding of a u32 (bincode fixed-width integer
encoding). -/
def u32LE (n : Nat) : List Byte :=
  [n % 256, n / 256 % 256, n / 256 ^ 2 % 256, n / 256 ^ 3 % 256]

/-- Little-endian 8 byte encoding of a u64 (bincode fixed-width integer
encoding). -/
def u64LE (n : Nat) : List Byte :=
  [n % 256, n / 256 % 256, n / 256 ^ 2 % 256, n / 256 ^ 3 % 256,
   n / 256 ^ 4 % 256, n / 256 ^ 5 % 256, n / 256 ^ 6 % 256, n / 256 ^ 7 % 256]

/-- Little-endian 16 byte encoding of a u128 (bincode fixed-width integer
encoding). -/
def u128LE (n : Nat) : List Byte :=
  u64LE (n % 2 ^ 64) ++ u64LE (n / 2 ^ 64)

/-- Bincode encoding of a Vec of bytes: u64 little-endian length prefix
followed by the raw bytes. -/
def bincodeBytes (v : List Byte) : List Byte :=
  u64LE v.length ++ v

/-- Bincode serialization of TxHashType: the fixed-width fields in struct
order, with length-prefixed byte vectors for call and data. -/
def TxHashType.serialize (t : TxHashType) : List Byte :=
  u32LE t.chainid ++ u64LE t.nonce ++ u64LE t.gas_price ++ u64LE t.gas ++
    bincodeBytes t.call ++ bincodeBytes t.data

/-- Transaction::hash (src/core/src/transaction.rs): Blake2b-256 of the
bincode serialization of TxHashType::new(self).  The Blake2b-256 function
itself is the collaborator parameter H. -/
def Transaction.hash (H : List Byte → List Byte) (tx : Transaction) : List Byte :=
  H (TxHashType.serialize (TxHashType.new tx))

/- ===================== pool/src/tx_pool.rs ===================== -/

/-- TxPoolManager::reset_pool (src/pool/src/tx_pool.rs): on a new head
block, the pending map retains exactly the transactions tx with
tx.get_nonce() > account.get_nonce(), where account is the senders account
in the state at the new head.  The executed-nonce read
(Balance::get_account at the head state root) is the collaborator
parameter executedNonce; the pending map is modelled as the list of its
transactions. -/
def reset_pool (executedNonce : Address → Nat) (pending : List Transaction) :
    List Transaction :=
  pending.filter (fun tx => executedNonce tx.sender < tx.nonce)

/- ===================== core/src/staking.rs ===================== -/

/-- Model of core::staking::LockingBalance: a queued stake amount and the
epoch height at which it becomes available. -/
structure LockingBalance where
  amount : Nat
  height : Nat
  deriving DecidableEq, Repr

/-- Model of core::staking::Validator (the staking record; u128 balances
and u64 heights as Nat). -/
structure StakingValidator where
  pubkey : List Byte
  balance : Nat
  effective_balance : Nat
  activate_height : Nat
  exit_height : Nat
  deposit_queue : List LockingBalance
  unlocked_queue : List LockingBalance
  deriving DecidableEq, Repr

/-- The while loop of Staking::activate_deposit (src/core/src/staking.rs
lines 280-285), made total with a fuel argument: none means the fuel ran
out with the loop still running.  The source binds offset immutably and
never increments it inside the loop; the loop condition and the break test
always inspect deposit_queue[offset], and each non-break iteration adds
deposit_queue[offset].amount to effective_balance.  The u128 addition that
would eventually overflow in Rust is modelled as unbounded Nat addition. -/
def activate_loop (epoch : Nat) (q : List LockingBalance) (offset : Nat) :
    Nat → Nat → Option Nat
  | 0, _ => none
  | fuel + 1, eff =>
    if h : offset < q.length then
      if (q.get ⟨offset, h⟩).height > epoch then some eff
      else activate_loop epoch q offset fuel (eff + (q.get ⟨offset, h⟩).amount)
    else some eff

/-- Staking::activate_deposit (src/core/src/staking.rs): epoch and offset
are the literal constants 0 of the source; after the loop the queue is
truncated to deposit_queue[..offset] = deposit_queue[..0].  The fuel bounds
the number of loop iterations; none means the loop did not terminate
within the given fuel. -/
def activate_deposit (fuel : Nat) (v : StakingValidator) : Option StakingValidator :=
  (activate_loop 0 v.deposit_queue 0 fuel v.effective_balance).map fun eff =>
    { v with effective_balance := eff, deposit_queue := v.deposit_queue.take 0 }

/-- Semantics the specification assigns to activate_deposit: move every
deposit_queue entry whose height is at most the current epoch into
effective_balance and drop exactly those entries from the queue.  Written
from the claim text, for comparison with the source translation above. -/
def activate_deposit_spec (epoch : Nat) (v : StakingValidator) : StakingValidator :=
  { v with
    effective_balance :=
      v.effective_balance +
        ((v.deposit_queue.filter (fun e => e.height ≤ epoch)).map LockingBalance.amount).sum
    deposit_queue := v.deposit_queue.filter (fun e => epoch < e.height) }

/- ===================== generator/src/apos.rs: threshold ===================== -/

/-- Tail of calc_random_threshold (src/generator/src/apos.rs lines 49-57)
after the f64 front end, as a function of the exact rational p produced by
BigRational::from_float(1 - (empty/1000)^(1/num)).  The source takes
p.numer().to_biguint().unwrap() — which panics when the numerator is
negative (modelled as none) — then computes ((1 << 128) * numer / denom)
in BigUint (floor division) and converts to u128 with
.to_u128().unwrap_or(u128::MAX), i.e. any quotient of at least 2^128
saturates to 2^128 - 1.  Lean Rat is kept normalized with a positive
denominator, exactly like num_rational::BigRational. -/
def calc_random_threshold_of (p : ℚ) : Option Nat :=
  if p.num < 0 then none
  else some (min (2 ^ 128 * p.num.toNat / p.den) (2 ^ 128 - 1))

/- ===================== core/src/balance.rs, executor/src/lib.rs ===================== -/

/-- Model of core::balance::Account: balance (u128), nonce (u64),
locked_balance (u128). -/
structure Account where
  balance : Nat
  nonce : Nat
  locked_balance : Nat
  deriving DecidableEq, Repr

/-- Account::default(): all fields zero. -/
def Account.default : Account := ⟨0, 0, 0⟩

/-- Balance state, modelled as the map from addresses to accounts that the
StateDB-backed Balance facade represents.  Balance::load_account returns
Account::default() for an address with no stored record, so an untouched
address simply maps to the default account.  The Blake2b storage-key
derivation (Balance::address_key) is injective on 20 byte addresses up to
hash collisions and is abstracted away by keying directly on the
address. -/
abbrev BState := Address → Account

/-- Balance::load_account (src/core/src/balance.rs). -/
def load_account (st : BState) (addr : Address) : Account := st addr

/-- Balance::set_account (src/core/src/balance.rs). -/
def set_account (st : BState) (addr : Address) (account : Account) : BState :=
  fun x => if x = addr then account else st x

/-- Balance::add_balance (src/core/src/balance.rs): account.balance += value. -/
def add_balance (st : BState) (addr : Address) (value : Nat) : BState :=
  let account := load_account st addr
  set_account st addr { account with balance := account.balance + value }

/-- Balance::sub_balance (src/core/src/balance.rs): account.balance -= value.
The u128 subtraction is modelled as truncated Nat subtraction; every caller
in the executor path checks the balance first, so the difference never
matters on reachable states. -/
def sub_balance (st : BState) (addr : Address) (value : Nat) : BState :=
  let account := load_account st addr
  set_account st addr { account with balance := account.balance - value }

/-- Balance::inc_nonce (src/core/src/balance.rs): account.nonce += 1. -/
def inc_nonce (st : BState) (addr : Address) : BState :=
  let account := load_account st addr
  set_account st addr { account with nonce := account.nonce + 1 }

/-- Balance::transfer (src/core/src/balance.rs): moves amount from
from_addr to to_addr if the source balance suffices, otherwise does
nothing. -/
def transfer (st : BState) (from_addr to_addr : Address) (amount : Nat) : BState :=
  if amount ≤ (load_account st from_addr).balance then
    add_balance (sub_balance st from_addr amount) to_addr amount
  else st

/-- Little-endian byte-list to Nat. -/
def leNat (bs : List Byte) : Nat := bs.foldr (fun b acc => b + 256 * acc) 0

/-- Bincode decoding of balance_msg::MsgTransfer { receiver: Address,
value: u128 } as used by Transaction::get_to_address and
Transaction::get_value: 20 raw receiver bytes followed by a 16 byte
little-endian u128.  The source calls bincode::deserialize(..).unwrap(),
which panics when the buffer is too short; that panic is the none case
here. -/
def decodeMsgTransfer (data : List Byte) : Option (Address × Nat) :=
  if data.length < 36 then none
  else some (⟨data.take 20⟩, leNat ((data.drop 20).take 16))

/-- Errors of the transaction execution path
(errors::InternalErrorKind).  decodePanic stands for the unwrap panic of
bincode::deserialize inside Transaction::get_to_address / get_value when
tx.data is not a well formed MsgTransfer. -/
inductive ExErr where
  | InvalidSignData
  | InvalidTxNonce
  | BalanceNotEnough
  | decodePanic
  deriving DecidableEq, Repr

/-- Per-transaction fee constant transfer_fee (src/executor/src/lib.rs). -/
def transfer_fee : Nat := 10000

/-- Executor::exc_transfer_tx (src/executor/src/lib.rs lines 46-66).  The
ed25519 signature check Transaction::verify_sign is the collaborator
parameter verify.  Steps in source order: read the receiver and value out
of tx.data, verify the signature, check nonce == account.nonce + 1, check
value + fee <= balance, debit the fee, bump the nonce, transfer the
value.  Note the function never inspects tx.call: there is no dispatch on
the selector anywhere in the executor. -/
def exc_transfer_tx (verify : Transaction → Bool) (tx : Transaction)
    (state : BState) : Except ExErr BState :=
  match decodeMsgTransfer tx.data with
  | none => .error .decodePanic
  | some (to_addr, value) =>
    if ¬ verify tx then .error .InvalidSignData
    else
      let from_account := load_account state tx.sender
      if tx.nonce ≠ from_account.nonce + 1 then .error .InvalidTxNonce
      else if from_account.balance < value + transfer_fee then .error .BalanceNotEnough
      else
        let st := sub_balance state tx.sender transfer_fee
        let st := inc_nonce st tx.sender
        let st := transfer st tx.sender to_addr value
        .ok st

/-- Executor::exc_txs_in_block (src/executor/src/lib.rs lines 34-43): runs
exc_transfer_tx on every transaction of the block in order, crediting
transfer_fee to the miner address after each one; the first error aborts
the whole block.  The source finally returns state.commit(); the model
returns the final balance state whose root that commit would produce. -/
def exc_txs_in_block (verify : Transaction → Bool) (txs : List Transaction)
    (state : BState) (miner_addr : Address) : Except ExErr BState :=
  match txs with
  | [] => .ok state
  | tx :: rest => do
    let st ← exc_transfer_tx verify tx state
    exc_txs_in_block verify rest (add_balance st miner_addr transfer_fee) miner_addr

/- ===================== core/src/state.rs: StateDB ===================== -/

/-- Storage keys of the state trie (32 byte Blake2b hashes in the source),
modelled as Nat. -/
abbrev HKey := Nat

/-- Lookup in an association list (first match wins, like HashMap::get on
the distinct-key lists the operations below maintain). -/
def alLookup {β : Type} (l : List (HKey × β)) (k : HKey) : Option β :=
  match l with
  | [] => none
  | p :: rest => if p.1 = k then some p.2 else alLookup rest k

/-- Removal from an association list. -/
def alRemove {β : Type} (l : List (HKey × β)) (k : HKey) : List (HKey × β) :=
  l.filter (fun p => p.1 ≠ k)

/-- Insert-or-replace in an association list (HashMap::insert / trie
insert). -/
def alInsert {β : Type} (l : List (HKey × β)) (k : HKey) (v : β) : List (HKey × β) :=
  (k, v) :: alRemove l k

/-- Model of core::state::StateDB: the trie field is the key-value map
that the Merkle-Patricia trie rooted at state_root represents (the root
hash is a pure function of this map, so the map stands for the root);
local_changes is the pending-write overlay, mapping a key to some value
for a buffered write and to none for a buffered tombstone, exactly like
the HashMap<Hash, Option<Vec<u8>>> of the source. -/
structure StateDB where
  trie : List (HKey × List Byte)
  local_changes : List (HKey × Option (List Byte))
  deriving DecidableEq, Repr

/-- StateDB::set_storage (src/core/src/state.rs): buffers a pending write
in the overlay. -/
def StateDB.set_storage (s : StateDB) (key : HKey) (value : List Byte) : StateDB :=
  { s with local_changes := alInsert s.local_changes key (some value) }

/-- StateDB::remove_storage (src/core/src/state.rs): buffers a tombstone
in the overlay. -/
def StateDB.remove_storage (s : StateDB) (key : HKey) : StateDB :=
  { s with local_changes := alInsert s.local_changes key none }

/-- StateDB::get_storage (src/core/src/state.rs): overlay first (a
buffered tombstone reads as none), then the trie at state_root. -/
def StateDB.get_storage (s : StateDB) (key : HKey) : Option (List Byte) :=
  match alLookup s.local_changes key with
  | some data => data
  | none => alLookup s.trie key

/-- One overlay entry applied to the trie map: TrieDBMut::insert for a
buffered write, TrieDBMut::remove for a tombstone. -/
def applyChange (t : List (HKey × List Byte)) (kv : HKey × Option (List Byte)) :
    List (HKey × List Byte) :=
  match kv.2 with
  | some d => alInsert t kv.1 d
  | none => alRemove t kv.1

/-- The whole overlay applied to the trie map, in iteration order. -/
def applyChanges (t : List (HKey × List Byte))
    (l : List (HKey × Option (List Byte))) : List (HKey × List Byte) :=
  l.foldl applyChange t

/-- StateDB::commit (src/core/src/state.rs lines 292-307): opens the trie
at the current root, replays every overlay entry into it (insert for
some, remove for none), then commits the ArchiveDB buffer.  The function
does NOT touch local_changes: the source has no local_changes.clear(), so
the overlay survives the commit verbatim. -/
def StateDB.commit (s : StateDB) : StateDB :=
  { s with trie := applyChanges s.trie s.local_changes }

/- ===================== generator/src/apos.rs: epoch seed ===================== -/

/-- Slots per epoch, generator::epoch::EPOCH_LENGTH. -/
def EPOCH_LENGTH : Nat := 64

/-- EpochPoS::compute_epoch_seed (src/generator/src/apos.rs lines
262-275).  Block hashes and seed values are modelled as Nat; blake2b_256
is the collaborator parameter H; chainBlocks is
BlockChain::get_block_by_number restricted to the hash of the returned
block.  The source first binds num = epoch * EPOCH_LENGTH and then
immediately rebinds num = 0, so the block looked up is always block 0;
the dead first binding is kept as _num.  For epoch 0 the looked-up hash
is replaced by the 32 zero bytes (modelled as 0) before hashing. -/
def compute_epoch_seed (H : Nat → Nat) (chainBlocks : Nat → Option Nat)
    (epoch : Nat) : Option Nat :=
  let _num := epoch * EPOCH_LENGTH
  let num := 0
  match chainBlocks num with
  | none => none
  | some bhash =>
    let seed := bhash
    let seed := if epoch = 0 then 0 else seed
    some (H seed)

/-- The rng_seed field produced by EpochPoS::get_epoch_info
(src/generator/src/apos.rs lines 148-171): the genesis epoch template
carries rng_seed = 32 zero bytes (modelled as 0), and for eid > 0 it is
overwritten with compute_epoch_seed(eid).unwrap() (the unwrap panic on a
missing block is propagated as none). -/
def rng_seed_of (H : Nat → Nat) (chainBlocks : Nat → Option Nat)
    (eid : Nat) : Option Nat :=
  if eid = 0 then some 0 else compute_epoch_seed H chainBlocks eid

/- ===================== chain/src/blockchain.rs, chain/src/store.rs ===================== -/

/-- Block hash values (32 byte Blake2b hashes in the source), modelled as
Nat. -/
abbrev Hv := Nat

/-- Model of core::block::Header restricted to the fields the import path
reads: height, parent_hash, time, tx_root, sign_root, state_root.  The
slot and vrf fields are never inspected by BlockChain::import_block and
are omitted. -/
structure MHeader where
  height : Nat
  parent_hash : Hv
  time : Nat
  tx_root : Hv
  sign_root : Hv
  state_root : Hv
  deriving DecidableEq, Repr

/-- Model of core::block::Block: header plus the signs and txs bodies.
The signs vector is abstracted to an opaque value, since import only ever
feeds it whole into get_hash_from_signs. -/
structure MBlock where
  header : MHeader
  signs : Nat
  txs : List Transaction
  deriving DecidableEq, Repr

/-- Model of chain::store::ChainDB: blocks is the b-prefixed hash-to-block
column (the h-prefixed header column always holds exactly the header of
the stored block and is folded into it), numbers the n-prefixed
height-to-hash column, head the H-prefixed head hash. -/
structure ChainDB where
  blocks : List (Hv × MBlock)
  numbers : List (Nat × Hv)
  head : Option Hv
  deriving DecidableEq, Repr

/-- ChainDB::get_block (src/chain/src/store.rs). -/
def ChainDB.get_block (db : ChainDB) (h : Hv) : Option MBlock :=
  alLookup db.blocks h

/-- ChainDB::get_block_by_number (src/chain/src/store.rs): height to hash
through the n column, then hash to block. -/
def ChainDB.get_block_by_number (db : ChainDB) (num : Nat) : Option MBlock :=
  (alLookup db.numbers num).bind db.get_block

/-- ChainDB::head_block (src/chain/src/store.rs): head hash then block. -/
def ChainDB.head_block (db : ChainDB) : Option MBlock :=
  db.head.bind db.get_block

/-- ChainDB::write_block (src/chain/src/store.rs): stores the header and
body under the block hash and the height-to-hash index entry.  hashH is
the collaborator Header::hash (Blake2b-256 of the bincode header). -/
def ChainDB.write_block (hashH : MHeader → Hv) (db : ChainDB) (b : MBlock) : ChainDB :=
  { db with
    blocks := alInsert db.blocks (hashH b.header) b
    numbers := alInsert db.numbers b.header.height (hashH b.header) }

/-- ChainDB::write_head_hash (src/chain/src/store.rs). -/
def ChainDB.write_head_hash (db : ChainDB) (h : Hv) : ChainDB :=
  { db with head := some h }

/-- Error kinds of chain::BlockChainErrorKind that the import path can
produce.  headMissing models the unwrap panic in
BlockChain::current_block when no head block is stored. -/
inductive ChainErr where
  | KnownBlock
  | UnknownAncestor
  | InvalidBlockHeight
  | InvalidBlockTime
  | MismatchHash
  | InvalidState
  | headMissing
  deriving DecidableEq, Repr

/-- BlockChain::exits_block (src/chain/src/blockchain.rs lines 110-114):
despite taking the block hash h, the body only asks whether ANY block is
indexed at height num; the hash argument is unused (the source marks it
allow(unused_variables)). -/
def exits_block (db : ChainDB) (h : Hv) (num : Nat) : Bool :=
  let _ := h
  (db.get_block_by_number num).isSome

/-- BlockChain::check_previous (src/chain/src/blockchain.rs): the parent
block is stored. -/
def check_previous (db : ChainDB) (header : MHeader) : Bool :=
  (db.get_block header.parent_hash).isSome

/-- Validator::validate_header (src/chain/src/blockchain.rs lines
188-205): parent exists, height increments by one, time strictly
increases. -/
def validate_header (db : ChainDB) (header : MHeader) : Except ChainErr Unit :=
  match db.get_block header.parent_hash with
  | none => .error .UnknownAncestor
  | some pre =>
    if header.height ≠ pre.header.height + 1 then .error .InvalidBlockHeight
    else if header.time ≤ pre.header.time then .error .InvalidBlockTime
    else .ok ()

/-- Validator::validate_block (src/chain/src/blockchain.rs lines 176-186):
sign_root then tx_root must match the recomputed body hashes.  Hsigns and
Htxs are the collaborators get_hash_from_signs and get_hash_from_txs
(Blake2b-256 of the bincode bodies). -/
def validate_block (Hsigns : Nat → Hv) (Htxs : List Transaction → Hv)
    (block : MBlock) : Except ChainErr Unit :=
  if block.header.sign_root ≠ Hsigns block.signs then .error .MismatchHash
  else if block.header.tx_root ≠ Htxs block.txs then .error .MismatchHash
  else .ok ()

/-- BlockChain::import_block (src/chain/src/blockchain.rs lines 141-168).
Checks in source order: exits_block (KnownBlock), check_previous
(UnknownAncestor), current head read (unwrap panic when absent),
parent_hash against the head hash (UnknownAncestor), header validation,
body validation, execution of the transactions against the parent state
root compared with the declared state_root (InvalidState), then
write_block and write_head_hash.  exec is the collaborator
BlockChain::apply_transactions (executor run plus state commit, returning
the new root).  The pair returned is the chain store after the call and
the error if the block was rejected; every rejecting branch of the source
returns before any store write. -/
def import_block (hashH : MHeader → Hv) (Hsigns : Nat → Hv)
    (Htxs : List Transaction → Hv) (exec : Hv → MBlock → Hv)
    (db : ChainDB) (block : MBlock) : ChainDB × Option ChainErr :=
  if exits_block db (hashH block.header) block.header.height then
    (db, some .KnownBlock)
  else if ¬ check_previous db block.header then
    (db, some .UnknownAncestor)
  else
    match db.head_block with
    | none => (db, some .headMissing)
    | some current =>
      if block.header.parent_hash ≠ hashH current.header then
        (db, some .UnknownAncestor)
      else
        match validate_header db block.header with
        | .error e => (db, some e)
        | .ok _ =>
          match validate_block Hsigns Htxs block with
          | .error e => (db, some e)
          | .ok _ =>
            if block.header.state_root ≠ exec current.header.state_root block then
              (db, some .InvalidState)
            else
              ((ChainDB.write_block hashH db block).write_head_hash (hashH block.header), none)

/- ===================== common/crypto/src/vrf.rs ===================== -/

/-- Order of the Ristretto group (= order of the prime-order subgroup of
curve25519), the modulus of curve25519_dalek::scalar::Scalar. -/
def lorder : ℕ :=
  7237005577332262213973186563042994240857116359379907606001950938285454250989

/-- Scalars of the VRF (curve25519_dalek Scalar): integers mod the group
order. -/
abbrev VScalar := ZMod lorder

/-- Ristretto points in exponent representation: the Ristretto group is
cyclic of prime order lorder, so a point is identified with its discrete
logarithm with respect to the basepoint G.  Point addition becomes field
addition, scalar multiplication becomes field multiplication, G itself is
1, and point compression (pack) is injective so packed bytes are
identified with the point. -/
abbrev VPoint := ZMod lorder

instance : Fact (1 < lorder) := ⟨by norm_num [lorder]⟩

/-- basemul (src/common/crypto/src/vrf.rs): s * G, in exponent form s. -/
def basemul (s : VScalar) : VPoint := s

/-- safe_invert (src/common/crypto/src/vrf.rs lines 307-309):
Scalar::conditional_select(s, one, s == zero).invert(): replace a zero
scalar by one, then invert.  ZMod carries an Inv instance with the same
extended-gcd semantics as the dalek modular inverse on units. -/
def safe_invert (s : VScalar) : VScalar :=
  (if s = 0 then 1 else s)⁻¹

/-- vmul2 (src/common/crypto/src/vrf.rs lines 311-313): the multiscalar
combination s1 * p1 + s2 * p2, in exponent form. -/
def vmul2 (s1 : VScalar) (p1 : VPoint) (s2 : VScalar) (p2 : VPoint) : VPoint :=
  s1 * p1 + s2 * p2

/-- The three Blake2b hash-to-scalar collaborators of the VRF:
offsetH models hash_s!(pk_bytes, input) used by PublicKey::offset;
chalH models hash_s!(pk_bytes, value_bytes, point, point) used for the
challenge by both prover and verifier (its arguments are the packed pk,
the packed value and the two packed points, injectively identified with
field elements);
nonceH models prs!(x), the Blake2b-512 wide reduction deriving the nonce
k from the packed scalar x. -/
structure VrfHashModel where
  offsetH : VPoint → List Byte → VScalar
  chalH : VPoint → VPoint → VPoint → VPoint → VScalar
  nonceH : VScalar → VScalar

/-- SecretKey::public_key composed with SecretKey::from_scalar
(src/common/crypto/src/vrf.rs): the public point is sk * G. -/
def public_key (sk : VScalar) : VPoint := basemul sk

/-- PublicKey::offset (src/common/crypto/src/vrf.rs lines 343-346):
hash-to-scalar of the packed public key followed by the input. -/
def PublicKey.offset (Hm : VrfHashModel) (pk : VPoint) (input : List Byte) : VScalar :=
  Hm.offsetH pk input

/-- SecretKey::compute_with_proof (src/common/crypto/src/vrf.rs lines
398-405): x = sk + offset(input); inv = safe_invert(x); value = inv * G;
nonce k = prs(x); challenge c = hash(pk, value, k * G, (inv * k) * G);
proof = (k - c * x, c). -/
def compute_with_proof (Hm : VrfHashModel) (sk : VScalar) (input : List Byte) :
    VPoint × (VScalar × VScalar) :=
  let pk := public_key sk
  let x := sk + PublicKey.offset Hm pk input
  let inv := safe_invert x
  let val := basemul inv
  let k := Hm.nonceH x
  let c := Hm.chalH pk val (basemul k) (basemul (inv * k))
  (val, (k - c * x, c))

/-- PublicKey::is_valid (src/common/crypto/src/vrf.rs lines 352-361):
recompute the challenge from (r, c) as hash(pk, value,
vmul2(r + c * offset(input), G, c, pk), vmul2(r, value, c, G)) and accept
iff it equals c.  The unpacking steps of the source (point decompression
of value, canonical scalar checks on the proof) always succeed here
because value and the proof components are modelled as group and field
elements directly. -/
def PublicKey.is_valid (Hm : VrfHashModel) (pk : VPoint) (input : List Byte)
    (value : VPoint) (proof : VScalar × VScalar) : Bool :=
  let r := proof.1
  let c := proof.2
  Hm.chalH pk value
      (vmul2 (r + c * PublicKey.offset Hm pk input) 1 c pk)
      (vmul2 r value c 1) = c

/-- PublicKey::is_vrf_valid (src/common/crypto/src/vrf.rs lines 348-350):
borrow wrapper around is_valid. -/
def is_vrf_valid (Hm : VrfHashModel) (pk : VPoint) (input : List Byte)
    (value : VPoint) (proof : VScalar × VScalar) : Bool :=
  PublicKey.is_valid Hm pk input value proof

/- ===================== network/src/sync/range_sync/{chain.rs,batch.rs} ===================== -/

/-- Blocks per requested batch (chain.rs BLOCKS_PER_BATCH). -/
def BLOCKS_PER_BATCH : Nat := 5

/-- Maximum number of batches buffered before requesting more
(chain.rs BATCH_BUFFER_SIZE). -/
def BATCH_BUFFER_SIZE : Nat := 5

/-- Re-process retry bound (chain.rs INVALID_BATCH_LOOKUP_ATTEMPTS). -/
def INVALID_BATCH_LOOKUP_ATTEMPTS : Nat := 3

/-- Model of sync::range_sync::batch::Batch.  Peers are Nat ids; the
downloaded blocks are modelled by their heights, the only block field the
chain logic reads (Block::height in the range check and the end-of-batch
check). -/
structure SBatch where
  id : Nat
  start_numer : Nat
  end_number : Nat
  head_root : Nat
  original_peer : Nat
  current_peer : Nat
  retries : Nat
  reprocess_retries : Nat
  original_hash : Option Nat
  downloaded_blocks : List Nat
  deriving DecidableEq, Repr

/-- Batch::new (src/network/src/sync/range_sync/batch.rs). -/
def SBatch.new (id start_numer end_number head_root peer_id : Nat) : SBatch :=
  { id := id
    start_numer := start_numer
    end_number := end_number
    head_root := head_root
    original_peer := peer_id
    current_peer := peer_id
    retries := 0
    reprocess_retries := 0
    original_hash := none
    downloaded_blocks := [] }

/-- PendingBatches::peer_is_idle (batch.rs): the peer has no in-flight
request.  The peer_requests index of the source is derived data over the
batches map and is represented by this scan. -/
def peer_is_idle (pending : List (Nat × SBatch)) (peer : Nat) : Bool :=
  ¬ pending.any (fun rb => rb.2.current_peer = peer)

/-- PendingBatches::add_block (batch.rs): push the block onto the batch of
the request id, none when the id matches no pending batch. -/
def pbAddBlock (pending : List (Nat × SBatch)) (rid : Nat) (blockHeight : Nat) :
    Option (List (Nat × SBatch)) :=
  match alLookup pending rid with
  | none => none
  | some _ =>
    some (pending.map fun rb =>
      if rb.1 = rid then
        (rb.1, { rb.2 with downloaded_blocks := rb.2.downloaded_blocks ++ [blockHeight] })
      else rb)

/-- PendingBatches::remove (batch.rs): take the batch of the request id
out of the pending map. -/
def pbRemove (pending : List (Nat × SBatch)) (rid : Nat) :
    Option (SBatch × List (Nat × SBatch)) :=
  match alLookup pending rid with
  | none => none
  | some b => some (b, alRemove pending rid)

/-- Model of sync::range_sync::chain::SyncingChain.  The network context
side effects (sending requests, downvoting peers, spawning the block
processor) are outside the state; next_request_id models the fresh RPC
request ids the network context hands out; the syncing flag models
ChainSyncingState. -/
structure SyncChain where
  start_numer : Nat
  target_head_slot : Nat
  target_head_root : Nat
  pending_batches : List (Nat × SBatch)
  completed_batches : List SBatch
  processed_batches : List SBatch
  peer_pool : List Nat
  to_be_downloaded_id : Nat
  to_be_processed_id : Nat
  syncing : Bool
  current_processing_batch : Option SBatch
  next_request_id : Nat
  deriving DecidableEq, Repr

/-- SyncingChain::new (chain.rs lines 105-131). -/
def SyncChain.new (start_numer target_head_slot target_head_root : Nat) : SyncChain :=
  { start_numer := start_numer
    target_head_slot := target_head_slot
    target_head_root := target_head_root
    pending_batches := []
    completed_batches := []
    processed_batches := []
    peer_pool := []
    to_be_downloaded_id := 1
    to_be_processed_id := 1
    syncing := false
    current_processing_batch := none
    next_request_id := 0 }

/-- SyncingChain::current_processed_slot (chain.rs lines 134-138):
start_numer + (to_be_processed_id - 1) * BLOCKS_PER_BATCH with saturating
subtraction (Nat subtraction saturates the same way). -/
def SyncChain.current_processed_slot (s : SyncChain) : Nat :=
  s.start_numer + (s.to_be_processed_id - 1) * BLOCKS_PER_BATCH

/-- SyncingChain::get_next_peer (chain.rs lines 472-485): some idle peer
of the pool.  The source shuffles the pool randomly before scanning; the
model resolves that nondeterministic choice by taking the first idle peer
in pool order, one of the admissible outcomes. -/
def SyncChain.get_next_peer (s : SyncChain) : Option Nat :=
  s.peer_pool.find? (fun p => peer_is_idle s.pending_batches p)

/-- SyncingChain::get_next_batch (chain.rs lines 489-537): refuse beyond
the buffer limit or past the target head slot, build the next batch at
start_numer + (to_be_downloaded_id - 1) * BLOCKS_PER_BATCH + 1 truncated
to the target head, and advance to_be_downloaded_id to the larger of its
successor and the successor of the last completed id. -/
def SyncChain.get_next_batch (s : SyncChain) (peer_id : Nat) :
    Option (SyncChain × SBatch) :=
  if s.completed_batches.length + s.pending_batches.length > BATCH_BUFFER_SIZE then
    none
  else
    let batch_start_numer :=
      s.start_numer + (s.to_be_downloaded_id - 1) * BLOCKS_PER_BATCH + 1
    if batch_start_numer > s.target_head_slot then none
    else
      let batch_end_number :=
        min (batch_start_numer + BLOCKS_PER_BATCH) (s.target_head_slot + 1)
      let batch_id := s.to_be_downloaded_id
      let max_completed_id := (s.completed_batches.getLast?).elim 0 SBatch.id
      some
        ({ s with
            to_be_downloaded_id := max (s.to_be_downloaded_id + 1) (max_completed_id + 1) },
         SBatch.new batch_id batch_start_numer batch_end_number s.target_head_root peer_id)

/-- SyncingChain::send_batch (chain.rs lines 540-547): allocate a request
id from the network context and insert the batch into the pending map. -/
def SyncChain.send_batch (s : SyncChain) (batch : SBatch) : SyncChain :=
  { s with
    pending_batches := s.pending_batches ++ [(s.next_request_id, batch)]
    next_request_id := s.next_request_id + 1 }

/-- SyncingChain::send_range_request (chain.rs lines 451-467): find an
idle peer and the next batch for it; none when no request was sent. -/
def SyncChain.send_range_request (s : SyncChain) : Option SyncChain :=
  (s.get_next_peer).bind fun peer_id =>
    (s.get_next_batch peer_id).map fun sb => sb.1.send_batch sb.2

/-- The while loop of SyncingChain::request_batches, with explicit fuel.
Each successful send makes one more peer busy, so the loop runs at most
peer_pool.length times; the fuel below is instantiated with exactly that
bound. -/
def request_loop : Nat → SyncChain → SyncChain
  | 0, s => s
  | fuel + 1, s =>
    match s.send_range_request with
    | none => s
    | some s1 => request_loop fuel s1

/-- SyncingChain::request_batches (chain.rs lines 443-447): when syncing,
send range requests until no idle peer or no batch remains. -/
def SyncChain.request_batches (s : SyncChain) : SyncChain :=
  if s.syncing then request_loop s.peer_pool.length s else s

/-- SyncingChain::process_batch (chain.rs lines 246-257): move the blocks
out of the batch to the worker (std::mem::replace with an empty vector)
and mark it as the batch being processed. -/
def SyncChain.process_batch (s : SyncChain) (batch : SBatch) : SyncChain :=
  { s with current_processing_batch := some { batch with downloaded_blocks := [] } }

/-- SyncingChain::process_completed_batches (chain.rs lines 219-243): only
when syncing, nothing already processing, and the first completed batch
carries exactly to_be_processed_id, pop it and hand it to the
processor. -/
def SyncChain.process_completed_batches (s : SyncChain) : SyncChain :=
  if ¬ s.syncing then s
  else if s.current_processing_batch.isSome then s
  else
    match s.completed_batches with
    | [] => s
    | b :: rest =>
      if b.id = s.to_be_processed_id then
        SyncChain.process_batch { s with completed_batches := rest } b
      else s

/-- Ordered insertion into the completed list by batch id, modelling the
binary_search / insert pair of handle_completed_batch on an
ascending-by-id list. -/
def insertByIdSorted : List SBatch → SBatch → List SBatch
  | [], b => [b]
  | x :: rest, b =>
    if b.id ≤ x.id then b :: x :: rest else x :: insertByIdSorted rest b

/-- SyncingChain::handle_completed_batch (chain.rs lines 166-215): for a
non-empty batch whose first or last block height falls outside
[start_numer, end_number], downvote the peer (network side effect) and
reset to_be_processed_id to the id of the offending batch, returning
early; otherwise insert the batch into the completed list in id order,
pre-emptively request more batches, and try to process completed
batches. -/
def SyncChain.handle_completed_batch (s : SyncChain) (batch : SBatch) : SyncChain :=
  match batch.downloaded_blocks.getLast? with
  | some last_slot =>
    let first_slot := batch.downloaded_blocks.headD 0
    if batch.start_numer > first_slot ∨ batch.end_number < last_slot then
      { s with to_be_processed_id := batch.id }
    else
      let s1 := { s with completed_batches := insertByIdSorted s.completed_batches batch }
      s1.request_batches.process_completed_batches
  | none =>
    let s1 := { s with completed_batches := insertByIdSorted s.completed_batches batch }
    s1.request_batches.process_completed_batches

/-- SyncingChain::on_block_response (chain.rs lines 146-161): a streamed
block is appended to its pending batch; a stream termination removes the
batch and completes it.  none when the request id belongs to no pending
batch of this chain. -/
def SyncChain.on_block_response (s : SyncChain) (request_id : Nat)
    (beacon_block : Option Nat) : Option SyncChain :=
  match beacon_block with
  | some blockHeight =>
    (pbAddBlock s.pending_batches request_id blockHeight).map fun pending =>
      { s with pending_batches := pending }
  | none =>
    (pbRemove s.pending_batches request_id).map fun br =>
      SyncChain.handle_completed_batch { s with pending_batches := br.2 } br.1

/-- SyncingChain::on_batch_process_result (chain.rs lines 261-393).  The
returned flag is none when the result does not belong to this chain, some
true for ProcessingResult::RemoveChain and some false for KeepChain.  On
Success: advance to_be_processed_id, drain processed_batches when the
batch was non-empty (the re-process validation and downvoting there are
network side effects), append the batch to processed_batches when it did
not reach end_number - 1, then either finish the chain or request and
process more.  On Failed: drop the chain and its peers once
reprocess_retries exceeds the bound, else keep it. -/
def SyncChain.on_batch_process_result (s : SyncChain) (batch_id : Nat)
    (downloaded_blocks : List Nat) (success : Bool) : SyncChain × Option Bool :=
  match s.current_processing_batch with
  | none => (s, none)
  | some current =>
    if current.id ≠ batch_id then (s, none)
    else
      let batch := { current with downloaded_blocks := downloaded_blocks }
      let s1 := { s with current_processing_batch := none }
      if success then
        let s2 := { s1 with to_be_processed_id := s1.to_be_processed_id + 1 }
        let s3 :=
          if batch.downloaded_blocks ≠ [] then { s2 with processed_batches := [] } else s2
        let s4 :=
          if batch.downloaded_blocks.getLast? ≠ some (batch.end_number - 1) then
            { s3 with processed_batches := s3.processed_batches ++ [batch] }
          else s3
        if s4.current_processed_slot ≥ s4.target_head_slot then (s4, some true)
        else (s4.request_batches.process_completed_batches, some false)
      else
        if batch.reprocess_retries > INVALID_BATCH_LOOKUP_ATTEMPTS then
          ({ s1 with peer_pool := [] }, some true)
        else (s1, some false)

/-- SyncingChain::add_peer (chain.rs lines 398-408): insert the peer into
the pool and, when the chain is syncing, request batches. -/
def SyncChain.add_peer (s : SyncChain) (peer_id : Nat) : SyncChain :=
  let s1 := { s with peer_pool := s.peer_pool ++ [peer_id] }
  if ¬ s1.syncing then s1 else s1.request_batches

/-- SyncingChain::start_syncing (chain.rs lines 410-432): when the local
finalized number is ahead of the current processed slot, re-index —
to_be_downloaded_id and to_be_processed_id are both reset to 1 and the
completed and processed lists are cleared; then mark the chain syncing,
process completed batches and request more. -/
def SyncChain.start_syncing (s : SyncChain) (local_finalized_number : Nat) : SyncChain :=
  let s1 :=
    if local_finalized_number > s.current_processed_slot then
      { s with
        to_be_downloaded_id := 1
        to_be_processed_id := 1
        completed_batches := []
        processed_batches := [] }
    else s
  let s2 := { s1 with syncing := true }
  s2.process_completed_batches.request_batches

/-- Externally visible events driving a SyncingChain: peer arrival, the
start_syncing call from range sync, a BlocksByRange response chunk
(some height) or stream termination (none), and a block processor
result. -/
inductive SyncEv where
  | addPeer (peer_id : Nat)
  | startSync (local_finalized_number : Nat)
  | blockResp (request_id : Nat) (beacon_block : Option Nat)
  | procResult (batch_id : Nat) (downloaded_blocks : List Nat) (success : Bool)
  deriving DecidableEq, Repr

/-- One event applied to the chain state (events not addressed to this
chain leave it unchanged, as the source returns None without mutating). -/
def syncStep (s : SyncChain) : SyncEv → SyncChain
  | .addPeer p => s.add_peer p
  | .startSync n => s.start_syncing n
  | .blockResp rid b => (s.on_block_response rid b).getD s
  | .procResult id blocks success => (s.on_batch_process_result id blocks success).1

/-- A whole event trace applied in order. -/
def syncRun (s : SyncChain) (evs : List SyncEv) : SyncChain :=
  evs.foldl syncStep s

/-- Event trace exhibiting two pending batches whose streams both
terminate with an out-of-range block, the higher batch id first: two
peers join, syncing starts (requesting batches 1 and 2 as request ids 0
and 1), then request 1 (batch 2) streams a block of height 999 and
terminates, then request 0 (batch 1) does the same. -/
def syncTracePre : List SyncEv :=
  [SyncEv.addPeer 10, SyncEv.addPeer 20, SyncEv.startSync 0,
   SyncEv.blockResp 1 (some 999), SyncEv.blockResp 1 none]

/-- Continuation of syncTracePre: the out-of-range termination of request
0 (batch 1). -/
def syncTraceSuf : List SyncEv :=
  [SyncEv.blockResp 0 (some 999), SyncEv.blockResp 0 none]

/- ===================== concrete instances used by the theorems ===================== -/

/-- Sample sender address (20 bytes of 1). -/
def addrA : Address := ⟨List.replicate 20 1⟩

/-- Sample receiver address (20 bytes of 2). -/
def addrB : Address := ⟨List.replicate 20 2⟩

/-- Miner address used in the executor examples (Address::default(), as in
BlockChain::apply_transactions). -/
def minerAddr : Address := ⟨List.replicate 20 0⟩

/-- MsgTransfer { receiver: addrB, value: 100 } in bincode bytes. -/
def txDataTransfer : List Byte := addrB.bytes ++ u128LE 100

/-- A transaction whose selector is foo.bar — a module.function pair that
matches none of balance.transfer, staking.validate, staking.deposit — with
a well formed MsgTransfer payload, correct next nonce and ample balance. -/
def txFooBar : Transaction :=
  { sender := addrA
    nonce := 1
    gas_price := 10
    gas := 10
    call := [102, 111, 111, 46, 98, 97, 114]
    data := txDataTransfer
    sign_data := ⟨List.replicate 32 0, List.replicate 32 0, List.replicate 32 0⟩ }

/-- Balance state holding 20100 at addrA (enough for the 100 transfer plus
the 10000 fee twice over) and defaults elsewhere. -/
def stateA : BState := fun a => if a = addrA then ⟨20100, 0, 0⟩ else Account.default

/-- Signature oracle accepting everything, standing for a correctly signed
transaction. -/
def acceptAll : Transaction → Bool := fun _ => true

/-- Concrete header hash function for the chain examples (injective on the
headers involved). -/
def hashHx : MHeader → Hv := fun h => 1000 + h.time + 3 * h.parent_hash

/-- Genesis block of the chain examples: all-default header. -/
def genBlockX : MBlock := { header := ⟨0, 0, 0, 0, 0, 0⟩, signs := 0, txs := [] }

/-- Chain store holding exactly genBlockX (hash 1000) at height 0 as
head. -/
def chainX : ChainDB :=
  { blocks := [(1000, genBlockX)]
    numbers := [(0, 1000)]
    head := some 1000 }

/-- A block at height 0 whose hash (1015 under hashHx) differs from the
stored hash 1000 of the genesis block occupying height 0. -/
def blockX : MBlock := { header := ⟨0, 5, 0, 0, 0, 0⟩, signs := 0, txs := [] }

/-- Trivial body-hash and executor collaborators for the chain
examples. -/
def zeroHsigns : Nat → Hv := fun _ => 0

/-- Trivial tx-root collaborator for the chain examples. -/
def zeroHtxs : List Transaction → Hv := fun _ => 0

/-- Trivial state-execution collaborator for the chain examples. -/
def zeroExec : Hv → MBlock → Hv := fun _ _ => 0

/-- StateDB with an empty trie and one buffered write, as produced by
set_storage on a fresh state. -/
def stateDBX : StateDB := StateDB.set_storage ⟨[], []⟩ 1 [2]

/-- Chain used in the epoch-seed example: genesis (height 0) has hash 100,
the epoch-boundary block at height 64 has hash 200, nothing else. -/
def chainSeedX : Nat → Option Nat :=
  fun n => if n = 0 then some 100 else if n = 64 then some 200 else none

/-- Hash collaborator for the epoch-seed example. -/
def hashSeedX : Nat → Nat := fun x => x + 1

/-- Validator with a single queued deposit of amount 1 activating at
height 0, exactly what Staking::deposit enqueues. -/
def validatorX : StakingValidator :=
  { pubkey := []
    balance := 1
    effective_balance := 0
    activate_height := 0
    exit_height := 0
    deposit_queue := [⟨1, 0⟩]
    unlocked_queue := [] }

/- ===================== theorems ===================== -/

/-- C10: Transaction::hash depends only on the chain id, nonce, gas_price,
gas, call and data fields: two transactions that differ only in their
sender address and/or their sign_data have equal hashes, for every choice
of the Blake2b collaborator. -/
theorem tx_hash_ignores_sender_and_sign (H : List Byte → List Byte)
    (tx : Transaction) (a : Address) (sd : SignData) :
    Transaction.hash H { tx with sender := a, sign_data := sd } =
      Transaction.hash H tx := rfl

/-- C8: when the pool observes a new head, reset_pool keeps exactly the
pending transactions whose nonce exceeds the executed nonce of their
sender in the new head state, i.e. it removes exactly those with nonce at
most the executed nonce. -/
theorem reset_pool_keeps_exactly_higher_nonces
    (executedNonce : Address → Nat) (pending : List Transaction)
    (tx : Transaction) :
    tx ∈ reset_pool executedNonce pending ↔
      tx ∈ pending ∧ executedNonce tx.sender < tx.nonce := by
  simp [reset_pool, List.mem_filter]

/-- The activate_deposit loop never exits once it inspects a queue entry
with height at most the epoch: offset is stuck at 0 and the entry at 0 of
validatorX has height 0. -/
theorem activate_loop_stuck :
    ∀ (fuel eff : Nat),
      activate_loop 0 validatorX.deposit_queue 0 fuel eff = none := by
  intro fuel
  induction fuel with
  | zero => intro eff; rfl
  | succ n ih =>
    intro eff
    simpa [activate_loop, validatorX] using ih (eff + 1)

/-- C7: Staking::activate_deposit does NOT terminate on every validator
state.  On a validator with one queued deposit of activation height 0 the
loop body never increments offset, so no amount of fuel makes the loop
exit (first conjunct), whereas the semantics the specification assigns to
the operation moves the queued amount into effective_balance and empties
the queue (second conjunct). -/
theorem activate_deposit_nonterminating :
    (∀ fuel : Nat, activate_deposit fuel validatorX = none) ∧
    activate_deposit_spec 0 validatorX =
      { validatorX with effective_balance := 1, deposit_queue := [] } := by
  constructor
  · intro fuel
    simp [activate_deposit, activate_loop_stuck]
  · decide

/-- C6 counterexample: at the exact rational p = -1 — produced by the f64
front end at the inputs empty = 2000, num = 1, where every floating step
is exact (2000/1000 = 2 and powf(2, 1) = 2 by IEEE 754, so
p = 1 - 2 = -1) — the claim says the threshold is 0, but the source
panics: BigRational::numer(-1).to_biguint() is None and is unwrapped. -/
theorem calc_random_threshold_negative_p :
    calc_random_threshold_of (-1 : ℚ) = none ∧
    calc_random_threshold_of (-1 : ℚ) ≠ some 0 := by
  have h : calc_random_threshold_of (-1 : ℚ) = none := by
    norm_num [calc_random_threshold_of]
  exact ⟨h, by simp [h]⟩

/-- C6 amended: the threshold saturates to 2^128 - 1 for every p at least
1 and evaluates to 0 at p = 0, but for every negative p the negative
numerator makes the BigUint conversion panic (none) instead of returning
0. -/
theorem calc_random_threshold_saturation (p : ℚ) :
    (1 ≤ p → calc_random_threshold_of p = some (2 ^ 128 - 1)) ∧
    (p = 0 → calc_random_threshold_of p = some 0) ∧
    (p < 0 → calc_random_threshold_of p = none) := by
  refine ⟨fun h1 => ?_, fun h0 => ?_, fun hneg => ?_⟩
  · have hnum0 : (0 : ℤ) ≤ p.num := Rat.num_nonneg.mpr (le_trans zero_le_one h1)
    have hden : (p.den : ℤ) ≤ p.num := by
      rw [Rat.le_def] at h1
      simpa using h1
    have hdenN : p.den ≤ p.num.toNat := by
      rw [Int.le_toNat hnum0]; exact hden
    have hq : 2 ^ 128 ≤ 2 ^ 128 * p.num.toNat / p.den := by
      rw [Nat.le_div_iff_mul_le (Nat.pos_of_ne_zero p.den_nz)]
      exact Nat.mul_le_mul_left _ hdenN
    have hnotneg : ¬ p.num < 0 := not_lt.mpr hnum0
    simp only [calc_random_threshold_of, if_neg hnotneg]
    have : min (2 ^ 128 * p.num.toNat / p.den) (2 ^ 128 - 1) = 2 ^ 128 - 1 :=
      min_eq_right (le_trans (by norm_num) hq)
    rw [this]
  · subst h0
    norm_num [calc_random_threshold_of]
  · have hnum : p.num < 0 := by
      by_contra hc
      exact absurd (Rat.num_nonneg.mp (not_lt.mp hc)) (not_le.mpr hneg)
    simp [calc_random_threshold_of, hnum]

/-- Witness for calc_random_threshold_saturation at p = 2, p = 0 and
p = -2. -/
theorem calc_random_threshold_saturation_witness :
    calc_random_threshold_of (2 : ℚ) = some (2 ^ 128 - 1) ∧
    calc_random_threshold_of (0 : ℚ) = some 0 ∧
    calc_random_threshold_of (-2 : ℚ) = none :=
  ⟨(calc_random_threshold_saturation 2).1 (by norm_num),
   (calc_random_threshold_saturation 0).2.1 rfl,
   (calc_random_threshold_saturation (-2)).2.2 (by norm_num)⟩

/-- C4: the per-epoch RNG seed is pinned to the genesis block.  On a chain
whose genesis hash is 100 and whose epoch-boundary block at height
(2-1) * EPOCH_LENGTH = 64 has hash 200, the seed of epoch 2 is the hash
collaborator applied to the genesis hash 100, not to the boundary hash
200 the claim requires — the source rebinds num = 0 over the computed
boundary height.  The epoch 0 seed is the 32 zero bytes as claimed. -/
theorem epoch_seed_pinned_to_genesis :
    rng_seed_of hashSeedX chainSeedX 2 = some (hashSeedX 100) ∧
    chainSeedX ((2 - 1) * EPOCH_LENGTH) = some 200 ∧
    hashSeedX 100 ≠ hashSeedX 200 ∧
    rng_seed_of hashSeedX chainSeedX 0 = some 0 := by
  refine ⟨by decide, by decide, by decide, by decide⟩

/-- Lookup after insert-or-replace. -/
theorem alLookup_alInsert {β : Type} (l : List (HKey × β)) (k : HKey) (v : β)
    (k2 : HKey) :
    alLookup (alInsert l k v) k2 = if k = k2 then some v else alLookup l k2 := by
  induction l with
  | nil => by_cases h : k = k2 <;> simp [alInsert, alRemove, alLookup, h]
  | cons p rest ih =>
    by_cases h : k = k2
    · simp [alInsert, alRemove, alLookup, h]
    · by_cases hp : p.1 = k
      · by_cases hp2 : p.1 = k2
        · exact absurd (hp ▸ hp2) h
        · simpa [alInsert, alRemove, alLookup, List.filter_cons, hp, hp2, h] using ih
      · by_cases hp2 : p.1 = k2
        · have h2 : ¬ k2 = k := fun hc => h hc.symm
          simp [alInsert, alRemove, alLookup, List.filter_cons, hp, hp2, h, h2]
        · simpa [alInsert, alRemove, alLookup, List.filter_cons, hp, hp2, h] using ih

/-- Lookup after removal. -/
theorem alLookup_alRemove {β : Type} (l : List (HKey × β)) (k : HKey)
    (k2 : HKey) :
    alLookup (alRemove l k) k2 = if k = k2 then none else alLookup l k2 := by
  induction l with
  | nil => by_cases h : k = k2 <;> simp [alRemove, alLookup, h]
  | cons p rest ih =>
    by_cases hp : p.1 = k
    · by_cases h : k = k2
      · simpa [alRemove, alLookup, List.filter_cons, hp, h] using ih
      · have hp2 : ¬ p.1 = k2 := fun hc => h (hp ▸ hc)
        simpa [alRemove, alLookup, List.filter_cons, hp, hp2, h] using ih
    · by_cases hp2 : p.1 = k2
      · have h : ¬ k = k2 := fun hc => hp (by rw [hc, hp2])
        have h2 : ¬ k2 = k := fun hc => h hc.symm
        simp [alRemove, alLookup, List.filter_cons, hp, hp2, h, h2]
      · simpa [alRemove, alLookup, List.filter_cons, hp, hp2] using ih

/-- Lookup misses every key absent from the list. -/
theorem alLookup_eq_none {β : Type} (l : List (HKey × β)) (k : HKey)
    (h : k ∉ l.map Prod.fst) : alLookup l k = none := by
  induction l with
  | nil => rfl
  | cons p rest ih =>
    simp only [List.map_cons, List.mem_cons] at h
    push_neg at h
    have hp : ¬ p.1 = k := fun hc => h.1 hc.symm
    simpa [alLookup, hp] using ih h.2

/-- Replaying an overlay with distinct keys into the trie map changes
exactly the overlaid keys: a buffered write is readable afterwards, a
tombstone reads as absent, everything else is untouched. -/
theorem applyChanges_lookup (l : List (HKey × Option (List Byte)))
    (t : List (HKey × List Byte)) (k : HKey)
    (hnd : (l.map Prod.fst).Nodup) :
    alLookup (applyChanges t l) k =
      match alLookup l k with
      | some v => v
      | none => alLookup t k := by
  induction l generalizing t with
  | nil => rfl
  | cons p rest ih =>
    simp only [List.map_cons, List.nodup_cons] at hnd
    have hstep : applyChanges t (p :: rest) = applyChanges (applyChange t p) rest := rfl
    by_cases hp : p.1 = k
    · have hmiss : alLookup rest k = none := alLookup_eq_none rest k (hp ▸ hnd.1)
      rw [hstep, ih (applyChange t p) hnd.2, hmiss]
      have : alLookup ((p.1, p.2) :: rest) k = some p.2 := by simp [alLookup, hp]
      rw [show (p :: rest : List (HKey × Option (List Byte))) = (p.1, p.2) :: rest from rfl,
        this]
      cases hv : p.2 with
      | none => simp [applyChange, hv, alLookup_alRemove, hp]
      | some d => simp [applyChange, hv, alLookup_alInsert, hp]
    · rw [hstep, ih (applyChange t p) hnd.2]
      have hhead : alLookup (p :: rest) k = alLookup rest k := by
        simp [alLookup, hp]
      rw [hhead]
      cases hrest : alLookup rest k with
      | some v => rfl
      | none =>
        cases hv : p.2 with
        | none => simp [applyChange, hv, alLookup_alRemove, hp]
        | some d => simp [applyChange, hv, alLookup_alInsert, hp]

/-- C3 counterexample: after StateDB::commit the pending-write overlay is
NOT empty — the source never clears local_changes — as shown by a state
with a single buffered write. -/
theorem statedb_commit_keeps_overlay :
    (StateDB.commit stateDBX).local_changes ≠ [] ∧
    (StateDB.commit stateDBX).local_changes = [(1, some [2])] := by
  constructor <;> decide

/-- C3 amended: commit applies the whole overlay to the trie, so the new
root (represented by the committed trie map) is exactly the prior root
updated with the overlay, and every subsequent get_storage agrees with
reading the trie at the new root; but the overlay itself survives commit
verbatim instead of being cleared, so those reads are still served from
the overlay.  The distinct-key hypothesis states what the HashMap overlay
of the source guarantees by construction. -/
theorem statedb_commit_agreement (s : StateDB)
    (hnd : (s.local_changes.map Prod.fst).Nodup) :
    (s.commit).trie = applyChanges s.trie s.local_changes ∧
    (s.commit).local_changes = s.local_changes ∧
    ∀ k, (s.commit).get_storage k = alLookup (s.commit).trie k := by
  refine ⟨rfl, rfl, fun k => ?_⟩
  show StateDB.get_storage ⟨applyChanges s.trie s.local_changes, s.local_changes⟩ k = _
  rw [StateDB.get_storage]
  rw [show (StateDB.commit s).trie = applyChanges s.trie s.local_changes from rfl]
  rw [applyChanges_lookup s.local_changes s.trie k hnd]
  cases h : alLookup s.local_changes k <;> rfl

/-- Witness for statedb_commit_agreement at the one-write state. -/
theorem statedb_commit_agreement_witness :
    (StateDB.commit stateDBX).get_storage 1 =
      alLookup (StateDB.commit stateDBX).trie 1 :=
  (statedb_commit_agreement stateDBX (by decide)).2.2 1

/-- C1 counterexample: a transaction whose selector foo.bar matches no
registered module.function is NOT logged-and-ignored by the executor — it
is executed with full balance-transfer semantics.  With a valid signature,
the next nonce and ample funds, the sender account changes (fee debited,
nonce bumped, value sent) and the receiver is credited the value. -/
theorem executor_applies_transfer_to_foreign_selector :
    (exc_transfer_tx acceptAll txFooBar stateA).map (fun st => st addrA) ≠
      Except.ok (stateA addrA) ∧
    (exc_transfer_tx acceptAll txFooBar stateA).map (fun st => st addrB) =
      Except.ok ⟨100, 0, 0⟩ := by
  have h1 : (exc_transfer_tx acceptAll txFooBar stateA).map (fun st => st addrA) =
      Except.ok ⟨10000, 1, 0⟩ := rfl
  have h2 : stateA addrA = ⟨20100, 0, 0⟩ := rfl
  refine ⟨?_, rfl⟩
  rw [h1, h2]
  intro hc
  simp at hc

/-- C1 amended: the executor never dispatches on tx.call — every
transaction, whatever its selector, runs through exc_transfer_tx with
balance-transfer semantics — and the selector influences the outcome only
through the signature check (whose hashed message covers the call bytes):
whenever the signature oracle answers the same on the rewritten selector,
the execution result is identical. -/
theorem exc_transfer_tx_ignores_call (v : Transaction → Bool)
    (tx : Transaction) (c : List Byte) (st : BState)
    (hv : v tx = v { tx with call := c }) :
    exc_transfer_tx v tx st = exc_transfer_tx v { tx with call := c } st := by
  unfold exc_transfer_tx
  rw [hv]

/-- Witness for exc_transfer_tx_ignores_call: rewriting the foo.bar
selector to a one byte selector under the accept-all oracle. -/
theorem exc_transfer_tx_ignores_call_witness :
    exc_transfer_tx acceptAll txFooBar stateA =
      exc_transfer_tx acceptAll { txFooBar with call := [0] } stateA :=
  exc_transfer_tx_ignores_call acceptAll txFooBar [0] stateA rfl

/-- C2 counterexample: import_block rejects with KnownBlock although no
block with the hash of the submitted block exists anywhere in the chain —
exits_block tests the height only.  chainX holds only the genesis block
(hash 1000) at height 0; blockX also has height 0 but hash 1015. -/
theorem import_block_known_by_height_only :
    (import_block hashHx zeroHsigns zeroHtxs zeroExec chainX blockX).2 =
      some ChainErr.KnownBlock ∧
    chainX.get_block (hashHx blockX.header) = none := by
  constructor <;> decide

/-- Validate_header with a stored parent never reports UnknownAncestor:
only a height or time violation. -/
theorem validate_header_cases (db : ChainDB) (header : MHeader)
    (h : (db.get_block header.parent_hash).isSome = true) :
    validate_header db header = .ok () ∨
    validate_header db header = .error .InvalidBlockHeight ∨
    validate_header db header = .error .InvalidBlockTime := by
  obtain ⟨pre, hpre⟩ := Option.isSome_iff_exists.mp h
  simp only [validate_header, hpre]
  split_ifs <;> simp

/-- Validate_block reports MismatchHash or succeeds. -/
theorem validate_block_cases (Hsigns : Nat → Hv) (Htxs : List Transaction → Hv)
    (block : MBlock) :
    validate_block Hsigns Htxs block = .ok () ∨
    validate_block Hsigns Htxs block = .error .MismatchHash := by
  rw [validate_block]
  split_ifs <;> simp

/-- C2 amended: import_block rejects with KnownBlock exactly when SOME
block already occupies the submitted height (the hash of the submitted
block is ignored by exits_block); it rejects with UnknownAncestor exactly
when the height was free and either the parent block is not stored or the
head block exists and its hash differs from parent_hash; and every
rejection leaves the chain store (blocks, height index and head) entirely
unchanged. -/
theorem import_block_rejection (hashH : MHeader → Hv) (Hsigns : Nat → Hv)
    (Htxs : List Transaction → Hv) (exec : Hv → MBlock → Hv)
    (db : ChainDB) (block : MBlock) :
    ((import_block hashH Hsigns Htxs exec db block).2 = some ChainErr.KnownBlock ↔
      (db.get_block_by_number block.header.height).isSome = true) ∧
    ((import_block hashH Hsigns Htxs exec db block).2 = some ChainErr.UnknownAncestor ↔
      (db.get_block_by_number block.header.height).isSome = false ∧
        ((db.get_block block.header.parent_hash).isSome = false ∨
          ∃ cur, db.head_block = some cur ∧
            block.header.parent_hash ≠ hashH cur.header)) ∧
    (∀ e, (import_block hashH Hsigns Htxs exec db block).2 = some e →
      (import_block hashH Hsigns Htxs exec db block).1 = db) := by
  by_cases hK : (db.get_block_by_number block.header.height).isSome = true
  · simp [import_block, exits_block, hK]
  · by_cases hP : (db.get_block block.header.parent_hash).isSome = true
    · obtain ⟨preB, hpreB⟩ := Option.isSome_iff_exists.mp hP
      cases hHB : db.head_block with
      | none =>
        simp [import_block, exits_block, check_previous, hK, hpreB, hHB]
      | some cur =>
        by_cases hPH : block.header.parent_hash = hashH cur.header
        · have hpreB2 : db.get_block (hashH cur.header) = some preB := by
            rw [← hPH]; exact hpreB
          rcases validate_header_cases db block.header hP with hvh | hvh | hvh
          · rcases validate_block_cases Hsigns Htxs block with hvb | hvb
            · by_cases hs : block.header.state_root = exec cur.header.state_root block
              · simp [import_block, exits_block, check_previous, hK, hHB, hPH,
                  hpreB2, hvh, hvb, hs]
              · simp [import_block, exits_block, check_previous, hK, hHB, hPH,
                  hpreB2, hvh, hvb, hs]
            · simp [import_block, exits_block, check_previous, hK, hHB, hPH,
                hpreB2, hvh, hvb]
          · simp [import_block, exits_block, check_previous, hK, hHB, hPH, hpreB2, hvh]
          · simp [import_block, exits_block, check_previous, hK, hHB, hPH, hpreB2, hvh]
        · simp [import_block, exits_block, check_previous, hK, hpreB, hHB, hPH]
    · simp [import_block, exits_block, check_previous, hK, hP]

/-- Witness for import_block_rejection: the KnownBlock rejection of blockX
on chainX leaves the store unchanged. -/
theorem import_block_rejection_witness :
    (import_block hashHx zeroHsigns zeroHtxs zeroExec chainX blockX).1 = chainX :=
  (import_block_rejection hashHx zeroHsigns zeroHtxs zeroExec chainX blockX).2.2
    ChainErr.KnownBlock (by decide)

/-- Completeness of the embedded VRF under the standard nondegeneracy
condition: verification of an honestly produced proof succeeds whenever
the blinded scalar sk + offset(pk, m) is a unit of the scalar field
(every nonzero scalar, since the group order is prime).  In the
degenerate zero case the safe-invert fallback makes the prover hash a
second point that differs from the one the verifier recomputes, so the
equation below genuinely needs the hypothesis; whether the real
Blake2b-derived offset ever produces that zero case for some key and
input is not known either way. -/
theorem vrf_completeness (Hm : VrfHashModel) (sk : VScalar) (input : List Byte)
    (hu : IsUnit (sk + PublicKey.offset Hm (public_key sk) input)) :
    is_vrf_valid Hm (public_key sk) input
      (compute_with_proof Hm sk input).1 (compute_with_proof Hm sk input).2 = true := by
  have hx0 : sk + PublicKey.offset Hm (public_key sk) input ≠ 0 := hu.ne_zero
  have hxi : (sk + PublicKey.offset Hm (public_key sk) input) *
      (sk + PublicKey.offset Hm (public_key sk) input)⁻¹ = 1 :=
    ZMod.mul_inv_of_unit _ hu
  simp only [is_vrf_valid, PublicKey.is_valid, compute_with_proof, public_key,
    basemul, vmul2, safe_invert, decide_eq_true_eq, PublicKey.offset] at *
  simp only [hx0, if_false, ite_false]
  set h := Hm.offsetH sk input with hhdef
  set k := Hm.nonceH (sk + h) with hkdef
  set c := Hm.chalH sk (sk + h)⁻¹ k ((sk + h)⁻¹ * k) with hcdef
  have e1 : (k - c * (sk + h) + c * h) * 1 + c * sk = k := by ring
  have e2 : (k - c * (sk + h)) * (sk + h)⁻¹ + c * 1 = (sk + h)⁻¹ * k := by
    have estep : (k - c * (sk + h)) * (sk + h)⁻¹ + c * 1 =
        k * (sk + h)⁻¹ - c * ((sk + h) * (sk + h)⁻¹) + c := by ring
    rw [estep, hxi]
    ring
  rw [e1, e2, ← hcdef]

/-- Get_next_batch only advances the download cursor: the processing
cursor is untouched. -/
theorem tbp_get_next_batch (s : SyncChain) (p : Nat) (s1 : SyncChain) (b : SBatch)
    (h : s.get_next_batch p = some (s1, b)) :
    s1.to_be_processed_id = s.to_be_processed_id := by
  unfold SyncChain.get_next_batch at h
  dsimp only at h
  split at h
  · exact absurd h (by simp)
  · split at h
    · exact absurd h (by simp)
    · simp only [Option.some.injEq, Prod.mk.injEq] at h
      obtain ⟨hs, hb⟩ := h
      subst hs
      rfl

/-- Send_range_request leaves the processing cursor unchanged. -/
theorem tbp_send_range_request (s s1 : SyncChain)
    (h : s.send_range_request = some s1) :
    s1.to_be_processed_id = s.to_be_processed_id := by
  unfold SyncChain.send_range_request at h
  cases hgp : s.get_next_peer with
  | none => rw [hgp] at h; simp at h
  | some peer =>
    rw [hgp] at h
    cases hnb : s.get_next_batch peer with
    | none => simp [hnb] at h
    | some sb =>
      simp only [hnb, Option.some_bind, Option.map_some'] at h
      have h2 := Option.some.inj h
      rw [← h2]
      exact tbp_get_next_batch s peer sb.1 sb.2 (by rw [hnb])

/-- The request loop leaves the processing cursor unchanged. -/
theorem tbp_request_loop (fuel : Nat) :
    ∀ s : SyncChain, (request_loop fuel s).to_be_processed_id = s.to_be_processed_id := by
  induction fuel with
  | zero => intro s; rfl
  | succ n ih =>
    intro s
    unfold request_loop
    cases hsr : s.send_range_request with
    | none => rfl
    | some s1 => rw [ih s1, tbp_send_range_request s s1 hsr]

/-- Request_batches leaves the processing cursor unchanged. -/
theorem tbp_request_batches (s : SyncChain) :
    s.request_batches.to_be_processed_id = s.to_be_processed_id := by
  unfold SyncChain.request_batches
  split_ifs
  · exact tbp_request_loop s.peer_pool.length s
  · rfl

/-- Process_completed_batches leaves the processing cursor unchanged (it
only pops a completed batch into current_processing_batch). -/
theorem tbp_process_completed (s : SyncChain) :
    s.process_completed_batches.to_be_processed_id = s.to_be_processed_id := by
  unfold SyncChain.process_completed_batches
  split_ifs
  all_goals try rfl
  all_goals
    cases s.completed_batches with
    | nil => rfl
    | cons b rest => dsimp only; split_ifs <;> rfl

/-- C9 amended: to_be_processed_id never decreases under streamed block
chunks, under batch process results, and under completed batches whose
blocks lie inside [start_numer, end_number]; it is NOT monotone in
general — an out-of-range completed batch resets it to that batch id and
start_syncing resets it to 1 when the local finalized number is ahead,
and either reset can decrease it (see the counterexample), so ascending
processing order is only guaranteed between resets. -/
theorem sync_processed_id_monotone_cases :
    (∀ (s : SyncChain) (rid bh : Nat) (s2 : SyncChain),
      s.on_block_response rid (some bh) = some s2 →
        s2.to_be_processed_id = s.to_be_processed_id) ∧
    (∀ (s : SyncChain) (batch_id : Nat) (blocks : List Nat) (success : Bool),
      s.to_be_processed_id ≤
        (s.on_batch_process_result batch_id blocks success).1.to_be_processed_id) ∧
    (∀ (s : SyncChain) (batch : SBatch),
      (batch.downloaded_blocks ≠ [] →
        batch.start_numer ≤ batch.downloaded_blocks.headD 0 ∧
          (batch.downloaded_blocks.getLast?).getD 0 ≤ batch.end_number) →
      s.to_be_processed_id ≤ (s.handle_completed_batch batch).to_be_processed_id) := by
  refine ⟨?_, ?_, ?_⟩
  · intro s rid bh s2 h
    cases hab : pbAddBlock s.pending_batches rid bh with
    | none =>
      simp only [SyncChain.on_block_response, hab, Option.map_none'] at h
      exact absurd h (by simp)
    | some pending =>
      simp only [SyncChain.on_block_response, hab, Option.map_some',
        Option.some.injEq] at h
      rw [← h]
  · intro s batch_id blocks success
    unfold SyncChain.on_batch_process_result
    cases s.current_processing_batch with
    | none => exact le_refl _
    | some current =>
      dsimp only
      split_ifs <;>
        first
          | exact le_refl _
          | exact Nat.le_succ _
          | (rw [tbp_process_completed, tbp_request_batches]; exact Nat.le_succ _)
  · intro s batch hin
    unfold SyncChain.handle_completed_batch
    cases hlast : batch.downloaded_blocks.getLast? with
    | none =>
      dsimp only
      rw [tbp_process_completed, tbp_request_batches]
    | some last_slot =>
      have hne : batch.downloaded_blocks ≠ [] := by
        intro hc
        rw [hc] at hlast
        simp at hlast
      obtain ⟨hfirst, hlast_le⟩ := hin hne
      rw [hlast] at hlast_le
      simp only [Option.getD_some] at hlast_le
      dsimp only
      have hcond : ¬ (batch.start_numer > batch.downloaded_blocks.headD 0 ∨
          batch.end_number < last_slot) := by
        push_neg
        exact ⟨hfirst, hlast_le⟩
      rw [if_neg hcond]
      rw [tbp_process_completed, tbp_request_batches]

/-- Witness for sync_processed_id_monotone_cases: the three parts applied
to concrete states — a streamed chunk into the two-batch state reached by
syncTracePre setup, an addressed-to-nobody process result on the fresh
chain, and an in-range completed batch. -/
theorem sync_processed_id_monotone_cases_witness :
    (((syncRun (SyncChain.new 0 1000 0)
        [SyncEv.addPeer 10, SyncEv.addPeer 20, SyncEv.startSync 0]).on_block_response
          0 (some 3)).getD (SyncChain.new 0 1000 0)).to_be_processed_id =
      (syncRun (SyncChain.new 0 1000 0)
        [SyncEv.addPeer 10, SyncEv.addPeer 20, SyncEv.startSync 0]).to_be_processed_id ∧
    (SyncChain.new 0 1000 0).to_be_processed_id ≤
      ((SyncChain.new 0 1000 0).on_batch_process_result 1 [] true).1.to_be_processed_id ∧
    (SyncChain.new 0 1000 0).to_be_processed_id ≤
      ((SyncChain.new 0 1000 0).handle_completed_batch
        { SBatch.new 1 1 6 0 10 with downloaded_blocks := [2] }).to_be_processed_id := by
  refine ⟨?_, ?_, ?_⟩
  · exact sync_processed_id_monotone_cases.1 _ 0 3 _ (by decide)
  · exact sync_processed_id_monotone_cases.2.1 _ 1 [] true
  · exact sync_processed_id_monotone_cases.2.2 _ _ (by decide)

/-- C9 counterexample: to_be_processed_id DOES decrease across a sequence
of events.  Two batches (ids 1 and 2) are in flight; the stream of batch 2
terminates with an out-of-range block first, resetting the cursor to 2;
then the stream of batch 1 terminates with an out-of-range block,
resetting the cursor back down to 1. -/
theorem sync_processed_id_decreases :
    (syncRun (SyncChain.new 0 1000 0) syncTracePre).to_be_processed_id = 2 ∧
    (syncRun (SyncChain.new 0 1000 0)
        (syncTracePre ++ syncTraceSuf)).to_be_processed_id = 1 := by
  constructor <;> decide
